import Mathlib

/-!
Verification of the triangle geometry / interpolation core of
`src/rasterizeTools.h` (a CUDA rasterizer's math layer).

The C++ code works on `glm::vec2` / `glm::vec3` of IEEE floats.  We embed it
shallowly over the exact rationals `ℚ`: every arithmetic operation of the
source (`+`, `-`, `*`, `/`, comparisons, `min`, `max`) is mapped to the
corresponding exact operation on `ℚ`, and triangles (`const glm::vec3 tri[3]`)
become functions `Fin 3 → Vec3`.  The C cast `(int)` (truncation toward zero)
and the C `%` operator (remainder with the sign of the dividend) are embedded
by `ctrunc` and `Int.tmod`.  Division is the one place where float behaviour
is not a total exact function (x/0 is ±inf or NaN); next to the plain
embedding we therefore keep a definedness-tracking variant where an `Option ℚ`
value `none` stands for a non-finite float, produced exactly by division by
zero.
-/

/-- Embedding of `glm::vec2`: two rational components. -/
@[ext]
structure Vec2 where
  x : ℚ
  y : ℚ
deriving DecidableEq

/-- Embedding of `glm::vec3`: three rational components. -/
@[ext]
structure Vec3 where
  x : ℚ
  y : ℚ
  z : ℚ
deriving DecidableEq

instance : Add Vec3 := ⟨fun a b => ⟨a.x + b.x, a.y + b.y, a.z + b.z⟩⟩

instance : SMul ℚ Vec3 := ⟨fun c v => ⟨c * v.x, c * v.y, c * v.z⟩⟩

theorem Vec3.add_def (a b : Vec3) : a + b = ⟨a.x + b.x, a.y + b.y, a.z + b.z⟩ := rfl

theorem Vec3.smul_def (c : ℚ) (v : Vec3) : c • v = ⟨c * v.x, c * v.y, c * v.z⟩ := rfl

/-- A triangle: the C array `const glm::vec3 tri[3]`. -/
abbrev Tri := Fin 3 → Vec3

/-- Build a 3-vertex array from its entries (the order of the C array). -/
def vtri (a b c : Vec3) : Tri := ![a, b, c]

/-- Embedding of `struct AABB { glm::vec3 min; glm::vec3 max; }`. -/
@[ext]
structure AABB where
  min : Vec3
  max : Vec3
deriving DecidableEq

/-- `getAABBForTriangle`: component-wise `min`/`max` over the three
vertices, exactly as the nested `min(min(..),..)` / `max(max(..),..)`
calls in the source. -/
def getAABBForTriangle (tri : Tri) : AABB where
  min := ⟨min (min (tri 0).x (tri 1).x) (tri 2).x,
          min (min (tri 0).y (tri 1).y) (tri 2).y,
          min (min (tri 0).z (tri 1).z) (tri 2).z⟩
  max := ⟨max (max (tri 0).x (tri 1).x) (tri 2).x,
          max (max (tri 0).y (tri 1).y) (tri 2).y,
          max (max (tri 0).z (tri 1).z) (tri 2).z⟩

/-- `calculateSignedArea`:
`0.5 * ((tri[2].x - tri[0].x) * (tri[1].y - tri[0].y)
        - (tri[1].x - tri[0].x) * (tri[2].y - tri[0].y))`. -/
def calculateSignedArea (tri : Tri) : ℚ :=
  (1 / 2) * (((tri 2).x - (tri 0).x) * ((tri 1).y - (tri 0).y)
      - ((tri 1).x - (tri 0).x) * ((tri 2).y - (tri 0).y))

/-- `calculateBarycentricCoordinateValue(a, b, c, tri)`: builds the
auxiliary triangle `baryTri` out of the 2D points `a`, `b`, `c`
(with `z = 0`, as `glm::vec3(a, 0)` does) and divides its signed area
by the signed area of `tri`. -/
def calculateBarycentricCoordinateValue (a b c : Vec2) (tri : Tri) : ℚ :=
  calculateSignedArea (vtri ⟨a.x, a.y, 0⟩ ⟨b.x, b.y, 0⟩ ⟨c.x, c.y, 0⟩)
    / calculateSignedArea tri

/-- `calculateBarycentricCoordinate(tri, point)`: `beta` from
`(V0.xy, point, V2.xy)`, `gamma` from `(V0.xy, V1.xy, point)`,
`alpha = 1 - beta - gamma`, returned as `(alpha, beta, gamma)`. -/
def calculateBarycentricCoordinate (tri : Tri) (point : Vec2) : Vec3 :=
  let beta := calculateBarycentricCoordinateValue
      ⟨(tri 0).x, (tri 0).y⟩ point ⟨(tri 2).x, (tri 2).y⟩ tri
  let gamma := calculateBarycentricCoordinateValue
      ⟨(tri 0).x, (tri 0).y⟩ ⟨(tri 1).x, (tri 1).y⟩ point tri
  let alpha := 1 - beta - gamma
  ⟨alpha, beta, gamma⟩

/-- `isBarycentricCoordInBounds`: all three components within `[0, 1]`. -/
def isBarycentricCoordInBounds (barycentricCoord : Vec3) : Bool :=
  0 ≤ barycentricCoord.x && barycentricCoord.x ≤ 1 &&
    (0 ≤ barycentricCoord.y) && barycentricCoord.y ≤ 1 &&
    (0 ≤ barycentricCoord.z) && barycentricCoord.z ≤ 1

/-- `getZAtCoordinate`: barycentric-weighted sum of the vertices'
`z` components. -/
def getZAtCoordinate (barycentricCoord : Vec3) (tri : Tri) : ℚ :=
  barycentricCoord.x * (tri 0).z
    + barycentricCoord.y * (tri 1).z
    + barycentricCoord.z * (tri 2).z

/-- `getNormalAtCoordinate`: barycentric-weighted sum of the three
per-vertex normals. -/
def getNormalAtCoordinate (barycentricCoord : Vec3) (normal : Tri) : Vec3 :=
  barycentricCoord.x • normal 0
    + barycentricCoord.y • normal 1
    + barycentricCoord.z • normal 2

/-- `getColorAtCoordinate`: barycentric-weighted sum of the three
per-vertex colors. -/
def getColorAtCoordinate (barycentricCoord : Vec3) (color : Tri) : Vec3 :=
  barycentricCoord.x • color 0
    + barycentricCoord.y • color 1
    + barycentricCoord.z • color 2

/-- Float division with definedness tracking: in IEEE arithmetic `x / 0`
is `±inf` (or `NaN` for `0 / 0`), never an error.  We model a finite
float value by `some q` and any non-finite value by `none`; division by
zero, the only source of non-finite values in this code, yields `none`. -/
def fdivTracked (a b : ℚ) : Option ℚ :=
  if b = 0 then none else some (a / b)

/-- `calculateBarycentricCoordinateValue` with the division-by-zero
tracking of `fdivTracked`; same numerator and denominator as the plain
embedding. -/
def calculateBarycentricCoordinateValueTracked (a b c : Vec2) (tri : Tri) :
    Option ℚ :=
  fdivTracked
    (calculateSignedArea (vtri ⟨a.x, a.y, 0⟩ ⟨b.x, b.y, 0⟩ ⟨c.x, c.y, 0⟩))
    (calculateSignedArea tri)

/-- `calculateBarycentricCoordinate` with division-by-zero tracking:
`alpha = 1 - beta - gamma` is non-finite as soon as `beta` or `gamma`
is (IEEE arithmetic propagates non-finiteness through subtraction). -/
def calculateBarycentricCoordinateTracked (tri : Tri) (point : Vec2) :
    Option ℚ × Option ℚ × Option ℚ :=
  let beta := calculateBarycentricCoordinateValueTracked
      ⟨(tri 0).x, (tri 0).y⟩ point ⟨(tri 2).x, (tri 2).y⟩ tri
  let gamma := calculateBarycentricCoordinateValueTracked
      ⟨(tri 0).x, (tri 0).y⟩ ⟨(tri 1).x, (tri 1).y⟩ point tri
  let alpha := match beta, gamma with
    | some b, some g => some (1 - b - g)
    | _, _ => none
  (alpha, beta, gamma)

/-- The C cast `(int)q`: truncation toward zero. -/
def ctrunc (q : ℚ) : ℤ :=
  if 0 ≤ q then ⌊q⌋ else -⌊-q⌋

/-- `getColorFromTextureData`, the `x` index:
`(int)(w * texcoord.x) % w` (`Int.tmod` is the C `%`, remainder with
the sign of the dividend). -/
def texPixelX (w : ℤ) (u : ℚ) : ℤ :=
  Int.tmod (ctrunc ((w : ℚ) * u)) w

/-- `getColorFromTextureData`, the `y` index:
`(int)(h * texcoord.y) % h`. -/
def texPixelY (h : ℤ) (v : ℚ) : ℤ :=
  Int.tmod (ctrunc ((h : ℚ) * v)) h

/-- `getColorFromTextureData`, the flat index `x + y * w`. -/
def texFlatIndex (w h : ℤ) (texcoord : Vec2) : ℤ :=
  texPixelX w texcoord.x + texPixelY h texcoord.y * w

/-- `getColorFromTextureData(pTextureData, texcoord, w, h, stride)`:
the texture is a byte at every offset (`ℤ → ℕ` models the raw pointer,
so out-of-range offsets read arbitrary memory bytes, as in C); the
result reads the bytes at offsets `index*stride`, `index*stride + 1`,
`index*stride + 2` and divides each by `255`. -/
def getColorFromTextureData (pTextureData : ℤ → ℕ) (texcoord : Vec2)
    (w h stride : ℤ) : Vec3 :=
  let index := texFlatIndex w h texcoord
  ⟨(pTextureData (index * stride) : ℚ) / 255,
   (pTextureData (index * stride + 1) : ℚ) / 255,
   (pTextureData (index * stride + 2) : ℚ) / 255⟩

/-! ### Helper lemmas -/

@[simp] theorem vtri_zero (a b c : Vec3) : vtri a b c 0 = a := rfl

@[simp] theorem vtri_one (a b c : Vec3) : vtri a b c 1 = b := rfl

@[simp] theorem vtri_two (a b c : Vec3) : vtri a b c 2 = c := rfl

/-- `min (min a b) c` is a lower bound of the three and is attained. -/
theorem min3_spec (a b c : ℚ) :
    min (min a b) c ≤ a ∧ min (min a b) c ≤ b ∧ min (min a b) c ≤ c ∧
      (min (min a b) c = a ∨ min (min a b) c = b ∨ min (min a b) c = c) := by
  refine ⟨le_trans (min_le_left _ _) (min_le_left _ _),
    le_trans (min_le_left _ _) (min_le_right _ _), min_le_right _ _, ?_⟩
  rcases min_cases (min a b) c with ⟨h, _⟩ | ⟨h, _⟩
  · rcases min_cases a b with ⟨h', _⟩ | ⟨h', _⟩
    · exact Or.inl (h.trans h')
    · exact Or.inr (Or.inl (h.trans h'))
  · exact Or.inr (Or.inr h)

/-- `max (max a b) c` is an upper bound of the three and is attained. -/
theorem max3_spec (a b c : ℚ) :
    a ≤ max (max a b) c ∧ b ≤ max (max a b) c ∧ c ≤ max (max a b) c ∧
      (max (max a b) c = a ∨ max (max a b) c = b ∨ max (max a b) c = c) := by
  refine ⟨le_trans (le_max_left _ _) (le_max_left _ _),
    le_trans (le_max_right _ _) (le_max_left _ _), le_max_right _ _, ?_⟩
  rcases max_cases (max a b) c with ⟨h, _⟩ | ⟨h, _⟩
  · rcases max_cases a b with ⟨h', _⟩ | ⟨h', _⟩
    · exact Or.inl (h.trans h')
    · exact Or.inr (Or.inl (h.trans h'))
  · exact Or.inr (Or.inr h)

/-- Every permutation of `Fin 3`, by its values at `0`, `1`, `2`. -/
theorem perm_fin3_cases (σ : Equiv.Perm (Fin 3)) :
    (σ 0 = 0 ∧ σ 1 = 1 ∧ σ 2 = 2) ∨ (σ 0 = 0 ∧ σ 1 = 2 ∧ σ 2 = 1) ∨
      (σ 0 = 1 ∧ σ 1 = 0 ∧ σ 2 = 2) ∨ (σ 0 = 1 ∧ σ 1 = 2 ∧ σ 2 = 0) ∨
      (σ 0 = 2 ∧ σ 1 = 0 ∧ σ 2 = 1) ∨ (σ 0 = 2 ∧ σ 1 = 1 ∧ σ 2 = 0) := by
  revert σ
  decide

/-- Nondegeneracy of a triangle, with the signed area expanded. -/
theorem signedArea_ne_expand {tri : Tri} (h : calculateSignedArea tri ≠ 0) :
    ((tri 2).x - (tri 0).x) * ((tri 1).y - (tri 0).y)
      - ((tri 1).x - (tri 0).x) * ((tri 2).y - (tri 0).y) ≠ 0 := by
  intro hc
  apply h
  simp only [calculateSignedArea, hc, mul_zero]

/-- At the first vertex the barycentric coordinate is `(1, 0, 0)`. -/
theorem bary_vertex_zero (tri : Tri) (h : calculateSignedArea tri ≠ 0) :
    calculateBarycentricCoordinate tri ⟨(tri 0).x, (tri 0).y⟩ = ⟨1, 0, 0⟩ := by
  have h' := signedArea_ne_expand h
  ext <;>
    simp only [calculateBarycentricCoordinate, calculateBarycentricCoordinateValue,
      calculateSignedArea, vtri_zero, vtri_one, vtri_two] <;>
    field_simp

/-- At the second vertex the barycentric coordinate is `(0, 1, 0)`. -/
theorem bary_vertex_one (tri : Tri) (h : calculateSignedArea tri ≠ 0) :
    calculateBarycentricCoordinate tri ⟨(tri 1).x, (tri 1).y⟩ = ⟨0, 1, 0⟩ := by
  have h' := signedArea_ne_expand h
  ext <;>
    simp only [calculateBarycentricCoordinate, calculateBarycentricCoordinateValue,
      calculateSignedArea, vtri_zero, vtri_one, vtri_two] <;>
    field_simp

/-- At the third vertex the barycentric coordinate is `(0, 0, 1)`. -/
theorem bary_vertex_two (tri : Tri) (h : calculateSignedArea tri ≠ 0) :
    calculateBarycentricCoordinate tri ⟨(tri 2).x, (tri 2).y⟩ = ⟨0, 0, 1⟩ := by
  have h' := signedArea_ne_expand h
  ext <;>
    simp only [calculateBarycentricCoordinate, calculateBarycentricCoordinateValue,
      calculateSignedArea, vtri_zero, vtri_one, vtri_two] <;>
    field_simp

/-! ### Claims -/

/-- C1: `calculateBarycentricCoordinate(tri, P)` returns
`(alpha, beta, gamma)` with
`beta = signedArea(V0, P, V2) / signedArea(V0, V1, V2)`,
`gamma = signedArea(V0, V1, P) / signedArea(V0, V1, V2)` and
`alpha = 1 - beta - gamma` — where `V0`, `V2` are the original 3D
vertices, not the z-zeroed copies the code builds — and hence for a
non-degenerate triangle `alpha + beta + gamma = 1` at every query
point. -/
theorem C1_barycentric_area_ratios (tri : Tri) (p : Vec2) :
    (calculateBarycentricCoordinate tri p).y
        = calculateSignedArea (vtri (tri 0) ⟨p.x, p.y, 0⟩ (tri 2))
            / calculateSignedArea tri
    ∧ (calculateBarycentricCoordinate tri p).z
        = calculateSignedArea (vtri (tri 0) (tri 1) ⟨p.x, p.y, 0⟩)
            / calculateSignedArea tri
    ∧ (calculateBarycentricCoordinate tri p).x
        = 1 - (calculateBarycentricCoordinate tri p).y
            - (calculateBarycentricCoordinate tri p).z
    ∧ (calculateSignedArea tri ≠ 0 →
        (calculateBarycentricCoordinate tri p).x
          + (calculateBarycentricCoordinate tri p).y
          + (calculateBarycentricCoordinate tri p).z = 1) := by
  refine ⟨?_, ?_, ?_, fun _ => ?_⟩
  all_goals simp only [calculateBarycentricCoordinate,
    calculateBarycentricCoordinateValue, calculateSignedArea,
    vtri_zero, vtri_one, vtri_two]
  all_goals ring

/-- C1 witness: the hypothesis of the last conjunct holds at the
right triangle `(0,0), (1,0), (0,1)`, and partition of unity follows
at the query point `(5, 7)`. -/
theorem C1_barycentric_area_ratios_witness :
    calculateSignedArea (vtri ⟨0, 0, 0⟩ ⟨1, 0, 0⟩ ⟨0, 1, 0⟩) ≠ 0
    ∧ (calculateBarycentricCoordinate (vtri ⟨0, 0, 0⟩ ⟨1, 0, 0⟩ ⟨0, 1, 0⟩) ⟨5, 7⟩).x
        + (calculateBarycentricCoordinate (vtri ⟨0, 0, 0⟩ ⟨1, 0, 0⟩ ⟨0, 1, 0⟩) ⟨5, 7⟩).y
        + (calculateBarycentricCoordinate (vtri ⟨0, 0, 0⟩ ⟨1, 0, 0⟩ ⟨0, 1, 0⟩) ⟨5, 7⟩).z = 1 :=
  ⟨by simp [calculateSignedArea],
   (C1_barycentric_area_ratios (vtri ⟨0, 0, 0⟩ ⟨1, 0, 0⟩ ⟨0, 1, 0⟩) ⟨5, 7⟩).2.2.2
     (by simp [calculateSignedArea])⟩

/-- C3: `isBarycentricCoordInBounds b` is true exactly when all three
weights of `b` lie in the closed interval `[0, 1]`. -/
theorem C3_inBounds_iff (b : Vec3) :
    isBarycentricCoordInBounds b = true ↔
      (0 ≤ b.x ∧ b.x ≤ 1) ∧ (0 ≤ b.y ∧ b.y ≤ 1) ∧ (0 ≤ b.z ∧ b.z ≤ 1) := by
  simp only [isBarycentricCoordInBounds, Bool.and_eq_true, decide_eq_true_eq]
  tauto

/-- C4: for every non-degenerate triangle, the barycentric coordinate
computed at each vertex is the corresponding unit weight triple, and
interpolating depth (`getZAtCoordinate`), normals
(`getNormalAtCoordinate`) and colors (`getColorAtCoordinate`) at those
coordinates reproduces exactly that vertex's attribute value, for any
attribute triples. -/
theorem C4_vertex_identity_roundtrip (tri normal color : Tri)
    (h : calculateSignedArea tri ≠ 0) :
    calculateBarycentricCoordinate tri ⟨(tri 0).x, (tri 0).y⟩ = ⟨1, 0, 0⟩
    ∧ calculateBarycentricCoordinate tri ⟨(tri 1).x, (tri 1).y⟩ = ⟨0, 1, 0⟩
    ∧ calculateBarycentricCoordinate tri ⟨(tri 2).x, (tri 2).y⟩ = ⟨0, 0, 1⟩
    ∧ getZAtCoordinate (calculateBarycentricCoordinate tri ⟨(tri 0).x, (tri 0).y⟩) tri = (tri 0).z
    ∧ getZAtCoordinate (calculateBarycentricCoordinate tri ⟨(tri 1).x, (tri 1).y⟩) tri = (tri 1).z
    ∧ getZAtCoordinate (calculateBarycentricCoordinate tri ⟨(tri 2).x, (tri 2).y⟩) tri = (tri 2).z
    ∧ getNormalAtCoordinate (calculateBarycentricCoordinate tri ⟨(tri 0).x, (tri 0).y⟩) normal = normal 0
    ∧ getNormalAtCoordinate (calculateBarycentricCoordinate tri ⟨(tri 1).x, (tri 1).y⟩) normal = normal 1
    ∧ getNormalAtCoordinate (calculateBarycentricCoordinate tri ⟨(tri 2).x, (tri 2).y⟩) normal = normal 2
    ∧ getColorAtCoordinate (calculateBarycentricCoordinate tri ⟨(tri 0).x, (tri 0).y⟩) color = color 0
    ∧ getColorAtCoordinate (calculateBarycentricCoordinate tri ⟨(tri 1).x, (tri 1).y⟩) color = color 1
    ∧ getColorAtCoordinate (calculateBarycentricCoordinate tri ⟨(tri 2).x, (tri 2).y⟩) color = color 2 := by
  have h0 := bary_vertex_zero tri h
  have h1 := bary_vertex_one tri h
  have h2 := bary_vertex_two tri h
  refine ⟨h0, h1, h2, ?_, ?_, ?_, ?_, ?_, ?_, ?_, ?_, ?_⟩ <;>
    simp only [h0, h1, h2] <;>
    simp [getZAtCoordinate, getNormalAtCoordinate, getColorAtCoordinate,
      Vec3.smul_def, Vec3.add_def, Vec3.ext_iff]

/-- C4 witness: the right triangle `(0,0), (1,0), (0,1)` is
non-degenerate and its first vertex gets weights `(1, 0, 0)`. -/
theorem C4_vertex_identity_roundtrip_witness :
    calculateSignedArea (vtri ⟨0, 0, 0⟩ ⟨1, 0, 0⟩ ⟨0, 1, 0⟩) ≠ 0
    ∧ calculateBarycentricCoordinate (vtri ⟨0, 0, 0⟩ ⟨1, 0, 0⟩ ⟨0, 1, 0⟩) ⟨0, 0⟩ = ⟨1, 0, 0⟩ :=
  ⟨by simp [calculateSignedArea],
   (C4_vertex_identity_roundtrip (vtri ⟨0, 0, 0⟩ ⟨1, 0, 0⟩ ⟨0, 1, 0⟩)
      (vtri ⟨0, 0, 1⟩ ⟨0, 1, 0⟩ ⟨1, 0, 0⟩) (vtri ⟨1, 1, 1⟩ ⟨1, 0, 0⟩ ⟨0, 0, 1⟩)
      (by simp [calculateSignedArea])).1⟩

/-- C5: `calculateSignedArea` uses only the `x` and `y` components of
the vertices (any change of `z` components leaves it unchanged), and on
every triangle whose `(x, y)` projections are collinear it returns
exactly `0`. -/
theorem C5_signedArea_xy_only_and_degenerate :
    (∀ tri tri' : Tri, (∀ i, (tri' i).x = (tri i).x) →
        (∀ i, (tri' i).y = (tri i).y) →
        calculateSignedArea tri' = calculateSignedArea tri)
    ∧ (∀ tri : Tri,
        Collinear ℚ {(((tri 0).x, (tri 0).y) : ℚ × ℚ),
          ((tri 1).x, (tri 1).y), ((tri 2).x, (tri 2).y)} →
        calculateSignedArea tri = 0) := by
  constructor
  · intro tri tri' hx hy
    simp only [calculateSignedArea, hx, hy]
  · intro tri hc
    rw [collinear_iff_of_mem (Set.mem_insert _ _)] at hc
    obtain ⟨v, hv⟩ := hc
    obtain ⟨r1, hr1⟩ := hv ((tri 1).x, (tri 1).y) (by simp)
    obtain ⟨r2, hr2⟩ := hv ((tri 2).x, (tri 2).y) (by simp)
    simp only [Prod.ext_iff, vadd_eq_add, Prod.fst_add, Prod.snd_add,
      Prod.smul_fst, Prod.smul_snd, smul_eq_mul] at hr1 hr2
    simp only [calculateSignedArea, hr1.1, hr1.2, hr2.1, hr2.2]
    ring

/-- C5 witness: changing only the `z` components of the right triangle
keeps the area, and the collinear points `(0,0), (1,1), (2,2)` give
area `0`. -/
theorem C5_signedArea_xy_only_and_degenerate_witness :
    calculateSignedArea (vtri ⟨0, 0, 9⟩ ⟨1, 0, 4⟩ ⟨0, 1, 6⟩)
        = calculateSignedArea (vtri ⟨0, 0, 0⟩ ⟨1, 0, 0⟩ ⟨0, 1, 0⟩)
    ∧ calculateSignedArea (vtri ⟨0, 0, 5⟩ ⟨1, 1, 7⟩ ⟨2, 2, 9⟩) = 0 := by
  have hcol : Collinear ℚ {(((0 : ℚ), (0 : ℚ)) : ℚ × ℚ), ((1 : ℚ), (1 : ℚ)),
      ((2 : ℚ), (2 : ℚ))} := by
    rw [collinear_iff_of_mem (Set.mem_insert _ _)]
    refine ⟨((1 : ℚ), (1 : ℚ)), ?_⟩
    intro p hp
    simp only [Set.mem_insert_iff, Set.mem_singleton_iff] at hp
    rcases hp with rfl | rfl | rfl
    · exact ⟨0, by simp⟩
    · exact ⟨1, by simp⟩
    · exact ⟨2, by simp [Prod.ext_iff]⟩
  exact ⟨C5_signedArea_xy_only_and_degenerate.1 _ _
      (by intro i; fin_cases i <;> simp) (by intro i; fin_cases i <;> simp),
    C5_signedArea_xy_only_and_degenerate.2 (vtri ⟨0, 0, 5⟩ ⟨1, 1, 7⟩ ⟨2, 2, 9⟩)
      (by simpa using hcol)⟩

/-- C7: permuting the three vertices never changes the magnitude of the
signed area (the sign may flip). -/
theorem C7_signedArea_perm_abs (tri : Tri) (σ : Equiv.Perm (Fin 3)) :
    |calculateSignedArea (tri ∘ σ)| = |calculateSignedArea tri| := by
  rcases perm_fin3_cases σ with ⟨h0, h1, h2⟩ | ⟨h0, h1, h2⟩ | ⟨h0, h1, h2⟩ |
      ⟨h0, h1, h2⟩ | ⟨h0, h1, h2⟩ | ⟨h0, h1, h2⟩ <;>
    simp only [calculateSignedArea, Function.comp_apply, h0, h1, h2] <;>
    rw [abs_eq_abs] <;>
    first
    | (left; ring1)
    | (right; ring1)

/-- C8: `getAABBForTriangle` yields the component-wise minimum of the
three vertices as the `min` corner (a lower bound that is attained) and
the component-wise maximum as the `max` corner (an attained upper
bound); it is invariant under every permutation of the vertices, and
`min ≤ max` holds component-wise. -/
theorem C8_getAABB_minmax (tri : Tri) (σ : Equiv.Perm (Fin 3)) :
    getAABBForTriangle (tri ∘ σ) = getAABBForTriangle tri
    ∧ (∀ i : Fin 3,
        (getAABBForTriangle tri).min.x ≤ (tri i).x
        ∧ (tri i).x ≤ (getAABBForTriangle tri).max.x
        ∧ (getAABBForTriangle tri).min.y ≤ (tri i).y
        ∧ (tri i).y ≤ (getAABBForTriangle tri).max.y
        ∧ (getAABBForTriangle tri).min.z ≤ (tri i).z
        ∧ (tri i).z ≤ (getAABBForTriangle tri).max.z)
    ∧ (∃ i : Fin 3, (getAABBForTriangle tri).min.x = (tri i).x)
    ∧ (∃ i : Fin 3, (getAABBForTriangle tri).min.y = (tri i).y)
    ∧ (∃ i : Fin 3, (getAABBForTriangle tri).min.z = (tri i).z)
    ∧ (∃ i : Fin 3, (getAABBForTriangle tri).max.x = (tri i).x)
    ∧ (∃ i : Fin 3, (getAABBForTriangle tri).max.y = (tri i).y)
    ∧ (∃ i : Fin 3, (getAABBForTriangle tri).max.z = (tri i).z)
    ∧ (getAABBForTriangle tri).min.x ≤ (getAABBForTriangle tri).max.x
    ∧ (getAABBForTriangle tri).min.y ≤ (getAABBForTriangle tri).max.y
    ∧ (getAABBForTriangle tri).min.z ≤ (getAABBForTriangle tri).max.z := by
  obtain ⟨nx0, nx1, nx2, nxe⟩ := min3_spec (tri 0).x (tri 1).x (tri 2).x
  obtain ⟨ny0, ny1, ny2, nye⟩ := min3_spec (tri 0).y (tri 1).y (tri 2).y
  obtain ⟨nz0, nz1, nz2, nze⟩ := min3_spec (tri 0).z (tri 1).z (tri 2).z
  obtain ⟨xx0, xx1, xx2, xxe⟩ := max3_spec (tri 0).x (tri 1).x (tri 2).x
  obtain ⟨xy0, xy1, xy2, xye⟩ := max3_spec (tri 0).y (tri 1).y (tri 2).y
  obtain ⟨xz0, xz1, xz2, xze⟩ := max3_spec (tri 0).z (tri 1).z (tri 2).z
  refine ⟨?_, ?_, ?_, ?_, ?_, ?_, ?_, ?_, nx0.trans xx0, ny0.trans xy0,
    nz0.trans xz0⟩
  · rcases perm_fin3_cases σ with ⟨h0, h1, h2⟩ | ⟨h0, h1, h2⟩ | ⟨h0, h1, h2⟩ |
        ⟨h0, h1, h2⟩ | ⟨h0, h1, h2⟩ | ⟨h0, h1, h2⟩ <;>
      ext <;>
      simp only [getAABBForTriangle, Function.comp_apply, h0, h1, h2] <;>
      first
      | (rw [min_comm, min_assoc, min_comm]; simp [min_comm, min_assoc, min_left_comm])
      | (rw [max_comm, max_assoc, max_comm]; simp [max_comm, max_assoc, max_left_comm])
      | simp [min_comm, min_assoc, min_left_comm, max_comm, max_assoc, max_left_comm]
  · intro i
    fin_cases i
    · exact ⟨nx0, xx0, ny0, xy0, nz0, xz0⟩
    · exact ⟨nx1, xx1, ny1, xy1, nz1, xz1⟩
    · exact ⟨nx2, xx2, ny2, xy2, nz2, xz2⟩
  · rcases nxe with h | h | h
    exacts [⟨0, h⟩, ⟨1, h⟩, ⟨2, h⟩]
  · rcases nye with h | h | h
    exacts [⟨0, h⟩, ⟨1, h⟩, ⟨2, h⟩]
  · rcases nze with h | h | h
    exacts [⟨0, h⟩, ⟨1, h⟩, ⟨2, h⟩]
  · rcases xxe with h | h | h
    exacts [⟨0, h⟩, ⟨1, h⟩, ⟨2, h⟩]
  · rcases xye with h | h | h
    exacts [⟨0, h⟩, ⟨1, h⟩, ⟨2, h⟩]
  · rcases xze with h | h | h
    exacts [⟨0, h⟩, ⟨1, h⟩, ⟨2, h⟩]

/-- C6: sampling at texcoord `(1.0, 1.0)` wraps around: both pixel
indices and the flat index are `0`, so the color is read from the first
pixel of the buffer, not from the out-of-bounds pixel `(w, h)`. -/
theorem C6_texture_wraparound (data : ℤ → ℕ) (w h stride : ℤ)
    (hw : 0 < w) (hh : 0 < h) :
    texPixelX w 1 = 0 ∧ texPixelY h 1 = 0
    ∧ texFlatIndex w h ⟨1, 1⟩ = 0
    ∧ getColorFromTextureData data ⟨1, 1⟩ w h stride
        = ⟨(data 0 : ℚ) / 255, (data 1 : ℚ) / 255, (data 2 : ℚ) / 255⟩ := by
  have hx : texPixelX w 1 = 0 := by
    simp [texPixelX, ctrunc, Int.cast_nonneg.2 hw.le, Int.tmod_self]
  have hy : texPixelY h 1 = 0 := by
    simp [texPixelY, ctrunc, Int.cast_nonneg.2 hh.le, Int.tmod_self]
  have hi : texFlatIndex w h ⟨1, 1⟩ = 0 := by
    simp [texFlatIndex, hx, hy]
  refine ⟨hx, hy, hi, ?_⟩
  simp [getColorFromTextureData, hi]

/-- C6 witness: a 2×2 texture with stride 3 at texcoord `(1, 1)`. -/
theorem C6_texture_wraparound_witness :
    (0 : ℤ) < 2
    ∧ getColorFromTextureData (fun i => i.toNat) ⟨1, 1⟩ 2 2 3
        = ⟨(0 : ℚ) / 255, (1 : ℚ) / 255, (2 : ℚ) / 255⟩ :=
  ⟨by decide,
   by simpa using (C6_texture_wraparound (fun i => i.toNat) 2 2 3
      (by decide) (by decide)).2.2.2⟩

/-- C2 counterexample: take `channelStride = 4` and two one-pixel
textures that differ only in the byte at offset `3` — the fourth of the
"channelStride consecutive bytes" the claim says are read.  The sampled
colors are identical, so the function does not read `channelStride`
bytes (it reads only 3). -/
theorem C2_counterexample_fourth_byte_not_read :
    getColorFromTextureData (fun i => if i = 3 then 7 else 0) ⟨0, 0⟩ 1 1 4
      = getColorFromTextureData (fun _ => 0) ⟨0, 0⟩ 1 1 4
    ∧ (fun i : ℤ => if i = 3 then (7 : ℕ) else 0) 3 ≠ (fun _ : ℤ => (0 : ℕ)) 3 := by
  constructor
  · simp [getColorFromTextureData, texFlatIndex, texPixelX, texPixelY, ctrunc]
  · simp

/-- C2 (amended): for non-negative normalized texcoords and positive
texture dimensions, the pixel indices are `⌊w*u⌋ mod w` and
`⌊h*v⌋ mod h` (mathematical floor and mod, i.e. wraparound), the flat
index is `x + y*w`, and the color is the 3 consecutive bytes at offsets
`index*stride`, `index*stride + 1`, `index*stride + 2`, each divided by
255 — and those 3 bytes are the only ones the result depends on. -/
theorem C2_texture_sampling_amended (data data' : ℤ → ℕ) (texcoord : Vec2)
    (w h stride : ℤ) (hw : 0 < w) (hh : 0 < h)
    (hu0 : 0 ≤ texcoord.x) (hv0 : 0 ≤ texcoord.y) :
    texPixelX w texcoord.x = ⌊(w : ℚ) * texcoord.x⌋ % w
    ∧ texPixelY h texcoord.y = ⌊(h : ℚ) * texcoord.y⌋ % h
    ∧ getColorFromTextureData data texcoord w h stride
        = ⟨(data (texFlatIndex w h texcoord * stride) : ℚ) / 255,
           (data (texFlatIndex w h texcoord * stride + 1) : ℚ) / 255,
           (data (texFlatIndex w h texcoord * stride + 2) : ℚ) / 255⟩
    ∧ ((data (texFlatIndex w h texcoord * stride)
          = data' (texFlatIndex w h texcoord * stride)
        ∧ data (texFlatIndex w h texcoord * stride + 1)
          = data' (texFlatIndex w h texcoord * stride + 1)
        ∧ data (texFlatIndex w h texcoord * stride + 2)
          = data' (texFlatIndex w h texcoord * stride + 2)) →
        getColorFromTextureData data texcoord w h stride
          = getColorFromTextureData data' texcoord w h stride) := by
  have hwu : (0 : ℚ) ≤ (w : ℚ) * texcoord.x :=
    mul_nonneg (Int.cast_nonneg.2 hw.le) hu0
  have hhv : (0 : ℚ) ≤ (h : ℚ) * texcoord.y :=
    mul_nonneg (Int.cast_nonneg.2 hh.le) hv0
  refine ⟨?_, ?_, rfl, ?_⟩
  · rw [texPixelX, ctrunc, if_pos hwu]
    exact Int.tmod_eq_emod (Int.floor_nonneg.2 hwu) hw.le
  · rw [texPixelY, ctrunc, if_pos hhv]
    exact Int.tmod_eq_emod (Int.floor_nonneg.2 hhv) hh.le
  · intro ⟨e0, e1, e2⟩
    simp only [getColorFromTextureData, e0, e1, e2]

/-- C2 witness for the amended claim: a 4×2 texture sampled at
`(1/2, 0)`. -/
theorem C2_texture_sampling_amended_witness :
    (0 : ℤ) < 4 ∧ (0 : ℤ) < 2 ∧ (0 : ℚ) ≤ 1 / 2 ∧ (0 : ℚ) ≤ 0
    ∧ texPixelX 4 (1 / 2) = ⌊(4 : ℚ) * (1 / 2)⌋ % 4 :=
  ⟨by decide, by decide, by simp, le_refl 0,
   (C2_texture_sampling_amended (fun i => i.toNat) (fun i => i.toNat)
      ⟨1 / 2, 0⟩ 4 2 3 (by decide) (by decide) (by simp) (le_refl 0)).1⟩

/-- C9: the barycentric divisions are unguarded and total: on a
non-degenerate triangle the tracked computation is defined and agrees
with the plain one, and on a degenerate triangle (total signed area
zero) the division by zero is reached and all three weights come out
non-finite (`none`), not a reported failure. -/
theorem C9_degenerate_division (tri : Tri) (p : Vec2) :
    (calculateSignedArea tri = 0 →
      calculateBarycentricCoordinateTracked tri p = (none, none, none))
    ∧ (calculateSignedArea tri ≠ 0 →
      calculateBarycentricCoordinateTracked tri p
        = (some (calculateBarycentricCoordinate tri p).x,
           some (calculateBarycentricCoordinate tri p).y,
           some (calculateBarycentricCoordinate tri p).z)) := by
  constructor <;> intro hd <;>
    simp [calculateBarycentricCoordinateTracked,
      calculateBarycentricCoordinateValueTracked, fdivTracked, hd,
      calculateBarycentricCoordinate, calculateBarycentricCoordinateValue]

/-- C9 witness: a degenerate triangle (three collinear vertices) gives
three `none` weights; a non-degenerate one gives `some` weights. -/
theorem C9_degenerate_division_witness :
    calculateSignedArea (vtri ⟨0, 0, 0⟩ ⟨1, 1, 0⟩ ⟨2, 2, 0⟩) = 0
    ∧ calculateBarycentricCoordinateTracked (vtri ⟨0, 0, 0⟩ ⟨1, 1, 0⟩ ⟨2, 2, 0⟩) ⟨5, 3⟩
        = (none, none, none)
    ∧ calculateSignedArea (vtri ⟨0, 0, 0⟩ ⟨1, 0, 0⟩ ⟨0, 1, 0⟩) ≠ 0
    ∧ calculateBarycentricCoordinateTracked (vtri ⟨0, 0, 0⟩ ⟨1, 0, 0⟩ ⟨0, 1, 0⟩) ⟨0, 0⟩
        = (some (calculateBarycentricCoordinate (vtri ⟨0, 0, 0⟩ ⟨1, 0, 0⟩ ⟨0, 1, 0⟩) ⟨0, 0⟩).x,
           some (calculateBarycentricCoordinate (vtri ⟨0, 0, 0⟩ ⟨1, 0, 0⟩ ⟨0, 1, 0⟩) ⟨0, 0⟩).y,
           some (calculateBarycentricCoordinate (vtri ⟨0, 0, 0⟩ ⟨1, 0, 0⟩ ⟨0, 1, 0⟩) ⟨0, 0⟩).z) :=
  ⟨by simp [calculateSignedArea],
   (C9_degenerate_division (vtri ⟨0, 0, 0⟩ ⟨1, 1, 0⟩ ⟨2, 2, 0⟩) ⟨5, 3⟩).1
     (by simp [calculateSignedArea]),
   by simp [calculateSignedArea],
   (C9_degenerate_division (vtri ⟨0, 0, 0⟩ ⟨1, 0, 0⟩ ⟨0, 1, 0⟩) ⟨0, 0⟩).2
     (by simp [calculateSignedArea])⟩

/-- C10: for weights that are in bounds (`isBarycentricCoordInBounds`)
and sum to 1, the interpolated depth lies between the `z` bounds of the
triangle's axis-aligned bounding box. -/
theorem C10_z_between_bounds (tri : Tri) (b : Vec3)
    (hb : isBarycentricCoordInBounds b = true)
    (hsum : b.x + b.y + b.z = 1) :
    (getAABBForTriangle tri).min.z ≤ getZAtCoordinate b tri
    ∧ getZAtCoordinate b tri ≤ (getAABBForTriangle tri).max.z := by
  simp only [isBarycentricCoordInBounds, Bool.and_eq_true,
    decide_eq_true_eq] at hb
  obtain ⟨⟨⟨⟨⟨hx0, _⟩, hy0⟩, _⟩, hz0⟩, _⟩ := hb
  obtain ⟨nz0, nz1, nz2, -⟩ := min3_spec (tri 0).z (tri 1).z (tri 2).z
  obtain ⟨xz0, xz1, xz2, -⟩ := max3_spec (tri 0).z (tri 1).z (tri 2).z
  constructor
  · have e : b.x * (min (min (tri 0).z (tri 1).z) (tri 2).z)
        + b.y * (min (min (tri 0).z (tri 1).z) (tri 2).z)
        + b.z * (min (min (tri 0).z (tri 1).z) (tri 2).z)
        = min (min (tri 0).z (tri 1).z) (tri 2).z := by
      linear_combination (min (min (tri 0).z (tri 1).z) (tri 2).z) * hsum
    have h0 := mul_le_mul_of_nonneg_left nz0 hx0
    have h1 := mul_le_mul_of_nonneg_left nz1 hy0
    have h2 := mul_le_mul_of_nonneg_left nz2 hz0
    simp only [getZAtCoordinate, getAABBForTriangle]
    linarith
  · have e : b.x * (max (max (tri 0).z (tri 1).z) (tri 2).z)
        + b.y * (max (max (tri 0).z (tri 1).z) (tri 2).z)
        + b.z * (max (max (tri 0).z (tri 1).z) (tri 2).z)
        = max (max (tri 0).z (tri 1).z) (tri 2).z := by
      linear_combination (max (max (tri 0).z (tri 1).z) (tri 2).z) * hsum
    have h0 := mul_le_mul_of_nonneg_left xz0 hx0
    have h1 := mul_le_mul_of_nonneg_left xz1 hy0
    have h2 := mul_le_mul_of_nonneg_left xz2 hz0
    simp only [getZAtCoordinate, getAABBForTriangle]
    linarith

/-- C10 witness: the vertex weight `(1, 0, 0)` on a triangle with `z`
values `0, 3, 6`. -/
theorem C10_z_between_bounds_witness :
    isBarycentricCoordInBounds ⟨1, 0, 0⟩ = true
    ∧ (1 : ℚ) + 0 + 0 = 1
    ∧ (getAABBForTriangle (vtri ⟨0, 0, 0⟩ ⟨4, 0, 3⟩ ⟨2, 3, 6⟩)).min.z
        ≤ getZAtCoordinate ⟨1, 0, 0⟩ (vtri ⟨0, 0, 0⟩ ⟨4, 0, 3⟩ ⟨2, 3, 6⟩) :=
  ⟨by simp [isBarycentricCoordInBounds],
   by simp,
   (C10_z_between_bounds (vtri ⟨0, 0, 0⟩ ⟨4, 0, 3⟩ ⟨2, 3, 6⟩) ⟨1, 0, 0⟩
      (by simp [isBarycentricCoordInBounds]) (by simp)).1⟩
